/-
Verification of the Inkycal image core: palette construction, quantized
plane separation (`image_to_palette`) and the white-chroma-key merge
(`Inkyimage.merge`) from `inkycal/modules/inky_image.py`.

Pixels are embedded as tuples of natural channel intensities; rasters as
row-major lists of rows.  The external image-library collaborators
(palette quantizer, bilevel converter, masked paste) are either
parameters of the theorems, constrained by their documented contracts,
or executable models noted as such in their doc comments.
-/
import Mathlib

set_option maxRecDepth 10000

namespace Inkycal

/-- An RGB pixel: three channel intensities. -/
structure RGB where
  r : Nat
  g : Nat
  b : Nat
deriving DecidableEq, Repr

/-- A raster: a list of rows of RGB pixels. -/
abbrev Raster := List (List RGB)

/-- Pure white. -/
def whitePix : RGB := ⟨255, 255, 255⟩

/-- Pure black. -/
def blackPix : RGB := ⟨0, 0, 0⟩

/-- The channel list `[r, g, b]` of a pixel. -/
def pixToList (p : RGB) : List Nat := [p.r, p.g, p.b]

/-- `pal[x : x + 3] for x in range(0, len(pal), 3)`: split a flat channel
list into consecutive triples (a final shorter slice is kept as is). -/
def chunk3 : List Nat → List (List Nat)
  | a :: b :: c :: rest => [a, b, c] :: chunk3 rest
  | [a, b] => [[a, b]]
  | [a] => [[a]]
  | [] => []

/-- The black-white-red base palette, `[255,255,255, 0,0,0, 255,0,0]`. -/
def bwrPal : List Nat := [255, 255, 255, 0, 0, 0, 255, 0, 0]

/-- The black-white-yellow base palette, `[255,255,255, 0,0,0, 255,255,0]`. -/
def bwyPal : List Nat := [255, 255, 255, 0, 0, 0, 255, 255, 0]

/-- The 16-gray base palette: `[x for x in range(0,256,16)] * 3`, sorted. -/
def grayPal : List Nat :=
  (List.flatten (List.replicate 3 ((List.range 16).map (fun x => 16 * x)))).insertionSort (· ≤ ·)

/-- The token dispatch of `image_to_palette`: `some (some pal)` for a
palette token, `some none` for the paletteless `bw` token, `none` for an
unsupported token. -/
def basePal (palette : String) : Option (Option (List Nat)) :=
  if palette = "bwr" then some (some bwrPal)
  else if palette = "bwy" then some (some bwyPal)
  else if palette = "bw" then some none
  else if palette = "16gray" then some (some grayPal)
  else none

/-- The padding step: with `colours = len(pal) // 3`, when
`256 % colours != 0` append `256 % colours` black triples. -/
def padPal (pal : List Nat) : List Nat :=
  let colours := pal.length / 3
  if 256 % colours ≠ 0 then pal ++ List.flatten (List.replicate (256 % colours) [0, 0, 0])
  else pal

/-- The full 768-value table handed to the quantizer:
`pal * (256 // colours)` after padding, with `colours` recomputed. -/
def fullTable (pal0 : List Nat) : List Nat :=
  let pal := padPal pal0
  let colours := pal.length / 3
  List.flatten (List.replicate (256 / colours) pal)

/-- The accent candidates: triples of the (padded) palette that are
neither `[0,0,0]` nor `[255,255,255]`. -/
def candidates (pal : List Nat) : List (List Nat) :=
  (chunk3 pal).filter (fun col => !(col == [0, 0, 0]) && !(col == [255, 255, 255]))

/-- Accent lookup: the first accent candidate; `none` when no candidate
exists (the Python code indexes `[0]` and would raise `IndexError`). -/
def accentOf (pal : List Nat) : Option (List Nat) :=
  (candidates pal).head?

/-- Black-band pixel rule: pixels with `r == r_col and g == g_col`
become white, the rest pass through. -/
def blackStep (rc gc : Nat) (p : RGB) : RGB :=
  if p.r = rc ∧ p.g = gc then whitePix else p

/-- Colour-band pixel rule: first pixels with `r == 0 and g == 0` become
white in place; then pixels whose (updated) channels satisfy
`g == g_col and b == 0` become black.  The second test reads the buffer
already mutated by the first (numpy views). -/
def colourStep (gc : Nat) (p : RGB) : RGB :=
  let p1 := if p.r = 0 ∧ p.g = 0 then whitePix else p
  if p1.g = gc ∧ p1.b = 0 then blackPix else p1

/-- Failure modes of `image_to_palette`. -/
inductive PalErr where
  | unsupportedPalette
  | indexError
  | unpackError
deriving DecidableEq, Repr

/-- Steps 3–5 on the quantized raster: find the accent, unpack its
channels, build the two bands pointwise. -/
def separateRGB (pal : List Nat) (quantized : Raster) : Except PalErr (Raster × Raster) :=
  match accentOf pal with
  | none => .error .indexError
  | some accent =>
    match accent with
    | [rc, gc, _bc] =>
      .ok (quantized.map (fun row => row.map (blackStep rc gc)),
           quantized.map (fun row => row.map (colourStep gc)))
    | _ => .error .unpackError

/-- The external quantizer collaborator: raster, flat palette table,
dither flag. -/
abbrev Quantizer := Raster → List Nat → Bool → Raster

/-- The external bilevel converter collaborator (`convert("1", dither)`). -/
abbrev Converter := Raster → Bool → Raster

/-- `Image.new(mode="1", size=im.size, color="white")`: an all-white
raster of the size of the given raster. -/
def whiteLike (im : Raster) : Raster :=
  List.replicate im.length (List.replicate (im.headD []).length whitePix)

/-- `image_to_palette(image, palette, dither)`, parameterized by the two
image-library collaborators it delegates to. -/
def image_to_palette (q : Quantizer) (c1 : Converter) (image : Raster) (palette : String)
    (dither : Bool) : Except PalErr (Raster × Raster) :=
  match basePal palette with
  | none => .error .unsupportedPalette
  | some none =>
    let im_black := c1 image dither
    .ok (im_black, whiteLike im_black)
  | some (some pal0) =>
    separateRGB (padPal pal0) (q image (fullTable pal0) dither)

/-- Squared distance between a pixel and a palette entry. -/
def sqDist (p t : RGB) : Int :=
  ((p.r : Int) - t.r) * ((p.r : Int) - t.r) + ((p.g : Int) - t.g) * ((p.g : Int) - t.g) +
    ((p.b : Int) - t.b) * ((p.b : Int) - t.b)

/-- Read a palette triple as a pixel (missing channels default to 0). -/
def listToRGB (t : List Nat) : RGB :=
  match t with
  | r :: g :: b :: _ => ⟨r, g, b⟩
  | [r, g] => ⟨r, g, 0⟩
  | [r] => ⟨r, 0, 0⟩
  | [] => ⟨0, 0, 0⟩

/-- Scan of the candidate list keeping the first entry of minimal
squared distance to `p` (ties keep the earlier entry). -/
def nearestGo (p best : RGB) (bd : Int) : List RGB → RGB
  | [] => best
  | c :: cs => if sqDist p c < bd then nearestGo p c (sqDist p c) cs else nearestGo p best bd cs

/-- First entry of the candidate list minimizing squared distance to `p`
(`p` itself when the list is empty). -/
def nearestColor (p : RGB) : List RGB → RGB
  | [] => p
  | t :: ts => nearestGo p t (sqDist p t) ts

/-- Modelled from the spec: the external quantizer collaborator — the
image library's palette quantization, "nearest-color mapping" (§4.2
step 2); used to instantiate quantizer parameters in witnesses. -/
def nearestQuantize : Quantizer := fun image table _dither =>
  image.map (fun row => row.map (fun p => nearestColor p ((chunk3 table).map listToRGB)))

/-- Modelled from the spec: the image library's direct bilevel
conversion with dithering disabled — ITU-R 601-2 luma threshold at 128
(`L24(rgb) >= 0x800000`). -/
def bilevel1 (image : Raster) : Raster :=
  image.map (fun row => row.map (fun p =>
    if 8388608 ≤ 19595 * p.r + 38470 * p.g + 7471 * p.b then whitePix else blackPix))

/-- A converter collaborator whose dither-off behaviour is the
documented luma threshold; used to instantiate converter parameters in
witnesses. -/
def thresholdConv : Converter := fun image _dither => bilevel1 image

/-- Pixel lookup at row `y`, column `x`. -/
def px (im : Raster) (y x : Nat) : Option RGB := im[y]? >>= fun row => row[x]?

/-- A raster restricted to pure black and pure white pixels. -/
abbrev onlyBW (im : Raster) : Prop := ∀ p ∈ im.flatten, p = whitePix ∨ p = blackPix

/-- An RGBA pixel: four channel intensities. -/
structure RGBA where
  r : Nat
  g : Nat
  b : Nat
  a : Nat
deriving DecidableEq, Repr

/-- A raster of RGBA pixels. -/
abbrev RGBARaster := List (List RGBA)

/-- A real image pixel has all channels in `0..255`. -/
abbrev validPix (p : RGBA) : Prop := p.r ≤ 255 ∧ p.g ≤ 255 ∧ p.b ≤ 255 ∧ p.a ≤ 255

/-- Pixel lookup at row `y`, column `x` of an RGBA raster. -/
def px4 (im : RGBARaster) (y x : Nat) : Option RGBA := im[y]? >>= fun row => row[x]?

namespace Inkyimage

/-- One pixel of `clear_white`: alpha 0 when the RGB channels are pure
white, alpha 255 otherwise. -/
def clearPix (p : RGBA) : RGBA :=
  ⟨p.r, p.g, p.b, if p.r = 255 ∧ p.g = 255 ∧ p.b = 255 then 0 else 255⟩

/-- `clear_white`: set each pixel's alpha to 255 when any of its RGB
channels differs from 255, to 0 when the pixel is pure white. -/
def clear_white (img : RGBARaster) : RGBARaster :=
  img.map (fun row => row.map clearPix)

/-- Modelled from the spec: the image library's division by 255 in
masked compositing, `MULDIV255(x, y) = ((t >> 8) + t) >> 8` with
`t = x * y + 128`. -/
def mulDiv255 (x y : Nat) : Nat :=
  let t := x * y + 128
  (t / 256 + t) / 256

/-- One channel of masked source-over compositing: destination weighted
by `255 - m`, source by `m`. -/
def blendC (m dst src : Nat) : Nat := mulDiv255 dst (255 - m) + mulDiv255 src m

/-- One pixel of masked compositing, mask value `m`. -/
def blendPix (m : Nat) (dst src : RGBA) : RGBA :=
  ⟨blendC m dst.r src.r, blendC m dst.g src.g, blendC m dst.b src.b, blendC m dst.a src.a⟩

/-- Modelled from the spec: one row of the image library's
`paste(img, (0, 0), mask)` with the pasted image itself as RGBA mask —
each destination pixel composited with the aligned source pixel using
the source's alpha as mask; source columns beyond the destination row
are cropped, destination columns beyond the source pass through. -/
def pasteRow : List RGBA → List RGBA → List RGBA
  | [], _ => []
  | ps, [] => ps
  | p :: ps, q :: qs => blendPix q.a p q :: pasteRow ps qs

/-- Modelled from the spec: the image library's
`paste(img, (0, 0), mask)` over whole rasters, cropping source rows
beyond the destination and keeping destination rows beyond the source. -/
def pasteAt00 : RGBARaster → RGBARaster → RGBARaster
  | [], _ => []
  | rows, [] => rows
  | row :: rows, orow :: orows => pasteRow row orow :: pasteAt00 rows orows

/-- `Inkyimage.merge(image1, image2)`: make the pure-white pixels of
`image2` transparent, then paste it over `image1` at the origin using
itself as mask. -/
def merge (image1 image2 : RGBARaster) : RGBARaster :=
  pasteAt00 image1 (clear_white image2)

end Inkyimage

end Inkycal

namespace Inkycal

/-- C2: on the 2×1 raster `[(255,0,0),(0,0,0)]` under `bwr` with
dithering disabled, any quantizer that fixes this already-on-palette
raster yields black band `[white, black]` and colour band
`[black, white]`. -/
theorem C2_bwr_concrete_scenario (q : Quantizer) (c1 : Converter)
    (hq : q [[⟨255, 0, 0⟩, ⟨0, 0, 0⟩]] (fullTable bwrPal) false =
      [[⟨255, 0, 0⟩, ⟨0, 0, 0⟩]]) :
    image_to_palette q c1 [[⟨255, 0, 0⟩, ⟨0, 0, 0⟩]] "bwr" false =
      .ok ([[⟨255, 255, 255⟩, ⟨0, 0, 0⟩]], [[⟨0, 0, 0⟩, ⟨255, 255, 255⟩]]) := by
  have e : image_to_palette q c1 [[⟨255, 0, 0⟩, ⟨0, 0, 0⟩]] "bwr" false =
      separateRGB (padPal bwrPal) (q [[⟨255, 0, 0⟩, ⟨0, 0, 0⟩]] (fullTable bwrPal) false) := rfl
  rw [e, hq]
  rfl

/-- Witness for C2 at the nearest-colour quantizer. -/
theorem C2_bwr_concrete_scenario_witness :
    image_to_palette nearestQuantize thresholdConv [[⟨255, 0, 0⟩, ⟨0, 0, 0⟩]] "bwr" false =
      .ok ([[⟨255, 255, 255⟩, ⟨0, 0, 0⟩]], [[⟨0, 0, 0⟩, ⟨255, 255, 255⟩]]) :=
  C2_bwr_concrete_scenario nearestQuantize thresholdConv (by rfl)

/-- C4: for each table-building token the palette handed to the
quantizer has exactly 256 triples (768 values), produced by appending
`256 % c` black triples when `256 % c ≠ 0` and replicating the padded
list `256 / c_padded` times; and `image_to_palette` hands the quantizer
exactly this table. -/
theorem C4_palette_table_256 :
    (256 % 3 = 1 ∧ padPal bwrPal = bwrPal ++ [0, 0, 0] ∧
      fullTable bwrPal = List.flatten (List.replicate (256 / 4) (padPal bwrPal)) ∧
      (chunk3 (fullTable bwrPal)).length = 256 ∧ (fullTable bwrPal).length = 768) ∧
    (padPal bwyPal = bwyPal ++ [0, 0, 0] ∧
      fullTable bwyPal = List.flatten (List.replicate (256 / 4) (padPal bwyPal)) ∧
      (chunk3 (fullTable bwyPal)).length = 256 ∧ (fullTable bwyPal).length = 768) ∧
    (256 % 16 = 0 ∧ padPal grayPal = grayPal ∧
      fullTable grayPal = List.flatten (List.replicate (256 / 16) (padPal grayPal)) ∧
      (chunk3 (fullTable grayPal)).length = 256 ∧ (fullTable grayPal).length = 768) ∧
    (∀ (q : Quantizer) (c1 : Converter) (image : Raster) (dither : Bool),
      image_to_palette q c1 image "bwr" dither =
        separateRGB (padPal bwrPal) (q image (fullTable bwrPal) dither) ∧
      image_to_palette q c1 image "bwy" dither =
        separateRGB (padPal bwyPal) (q image (fullTable bwyPal) dither) ∧
      image_to_palette q c1 image "16gray" dither =
        separateRGB (padPal grayPal) (q image (fullTable grayPal) dither)) := by
  refine ⟨⟨by decide, by decide, by decide, by decide, by decide⟩,
    ⟨by decide, by decide, by decide, by decide⟩,
    ⟨by decide, by decide, by decide, by decide, by decide⟩,
    fun q c1 image dither => ⟨rfl, rfl, rfl⟩⟩

/-- C5: any palette token outside the four supported ones makes
`image_to_palette` fail with the unsupported-palette error, producing no
raster. -/
theorem C5_unsupported_token (q : Quantizer) (c1 : Converter) (image : Raster) (dither : Bool)
    (palette : String) (h1 : palette ≠ "bwr") (h2 : palette ≠ "bwy") (h3 : palette ≠ "bw")
    (h4 : palette ≠ "16gray") :
    image_to_palette q c1 image palette dither = .error PalErr.unsupportedPalette := by
  have hb : basePal palette = none := by
    unfold basePal
    rw [if_neg h1, if_neg h2, if_neg h3, if_neg h4]
  unfold image_to_palette
  rw [hb]

/-- Witness for C5 at the token "cmyk". -/
theorem C5_unsupported_token_witness :
    image_to_palette nearestQuantize thresholdConv [[blackPix]] "cmyk" true =
      .error PalErr.unsupportedPalette :=
  C5_unsupported_token nearestQuantize thresholdConv [[blackPix]] true "cmyk"
    (by decide) (by decide) (by decide) (by decide)

/-- C3 counterexample: the 16gray table has 15 accent candidates (more
than one), yet separation does not fail — on a concrete black input it
returns two planes. -/
theorem C3_counterexample_gray_many_candidates :
    (candidates (padPal grayPal)).length = 15 ∧
    image_to_palette nearestQuantize thresholdConv [[blackPix]] "16gray" false =
      .ok ([[blackPix]], [[whitePix]]) :=
  ⟨by decide, by rfl⟩

/-- C3 amended: accent identification selects the first candidate of the
padded table, failing exactly when no candidate exists; bwr and bwy have
a unique candidate, while 16gray has 15 candidates, selects (16,16,16),
and never fails. -/
theorem C3_accent_first_candidate :
    (∀ (pal : List Nat) (quantized : Raster),
      separateRGB pal quantized = .error PalErr.indexError ↔ accentOf pal = none) ∧
    accentOf (padPal bwrPal) = some [255, 0, 0] ∧ (candidates (padPal bwrPal)).length = 1 ∧
    accentOf (padPal bwyPal) = some [255, 255, 0] ∧ (candidates (padPal bwyPal)).length = 1 ∧
    accentOf (padPal grayPal) = some [16, 16, 16] ∧ (candidates (padPal grayPal)).length = 15 ∧
    (∀ (q : Quantizer) (c1 : Converter) (image : Raster) (dither : Bool),
      ∃ bc, image_to_palette q c1 image "16gray" dither = .ok bc) := by
  refine ⟨?_, by decide, by decide, by decide, by decide, by decide, by decide, ?_⟩
  · intro pal quantized
    unfold separateRGB
    cases haccent : accentOf pal with
    | none => simp
    | some accent =>
      rcases accent with _ | ⟨a, _ | ⟨b, _ | ⟨c, _ | ⟨d, rest⟩⟩⟩⟩ <;> simp
  · intro q c1 image dither
    exact ⟨_, rfl⟩

/-- Pixel lookup commutes with a pointwise raster map. -/
theorem px_map (f : RGB → RGB) (im : Raster) (y x : Nat) :
    px (im.map (fun row => row.map f)) y x = (px im y x).map f := by
  unfold px
  cases him : im[y]? with
  | none => simp [List.getElem?_map, him]
  | some row => simp [List.getElem?_map, him]

/-- C10: under `bwr`, a pixel that is pure black in the quantized raster
is pure white in the colour plane — the black-to-white substitution runs
first and the accent test reads the substituted values. -/
theorem C10_black_pixel_escapes_accent_test (q : Quantizer) (c1 : Converter) (image : Raster)
    (dither : Bool) (b c : Raster)
    (h : image_to_palette q c1 image "bwr" dither = .ok (b, c))
    (y x : Nat) (hp : px (q image (fullTable bwrPal) dither) y x = some blackPix) :
    px c y x = some whitePix := by
  have e : image_to_palette q c1 image "bwr" dither =
      .ok ((q image (fullTable bwrPal) dither).map (fun row => row.map (blackStep 255 0)),
        (q image (fullTable bwrPal) dither).map (fun row => row.map (colourStep 0))) := rfl
  rw [e] at h
  simp only [Except.ok.injEq, Prod.mk.injEq] at h
  obtain ⟨-, hc⟩ := h
  rw [← hc, px_map, hp]
  rfl

/-- Witness for C10: a single black pixel quantizes to black under the
nearest-colour quantizer and the colour plane holds white there. -/
theorem C10_black_pixel_escapes_accent_test_witness :
    px [[whitePix]] 0 0 = some whitePix :=
  C10_black_pixel_escapes_accent_test nearestQuantize thresholdConv [[blackPix]] false
    [[blackPix]] [[whitePix]] (by rfl) 0 0 (by rfl)

/-- The dither-off bilevel conversion only emits pure black and pure
white. -/
theorem bilevel1_onlyBW (im : Raster) : onlyBW (bilevel1 im) := by
  intro p hp
  simp only [bilevel1, List.mem_flatten, List.mem_map] at hp
  obtain ⟨row, ⟨row0, hrow0, hrow⟩, hpin⟩ := hp
  subst hrow
  obtain ⟨p0, hp0, hpeq⟩ := List.mem_map.mp hpin
  subst hpeq
  by_cases hcase : 8388608 ≤ 19595 * p0.r + 38470 * p0.g + 7471 * p0.b
  · exact Or.inl (by simp [hcase])
  · exact Or.inr (by simp [hcase])

/-- The dither-off bilevel conversion fixes rasters that are already
pure black/white. -/
theorem bilevel1_fixes_binary {im : Raster} (h : onlyBW im) : bilevel1 im = im := by
  unfold bilevel1
  have houter : ∀ row ∈ im,
      row.map (fun p =>
        if 8388608 ≤ 19595 * p.r + 38470 * p.g + 7471 * p.b then whitePix else blackPix) = row := by
    intro row hrow
    have hinner : ∀ p ∈ row,
        (if 8388608 ≤ 19595 * p.r + 38470 * p.g + 7471 * p.b then whitePix else blackPix) = p := by
      intro p hp
      rcases h p (List.mem_flatten.mpr ⟨row, hrow, hp⟩) with rfl | rfl <;> rfl
    exact (List.map_congr_left hinner).trans (List.map_id' row)
  exact (List.map_congr_left houter).trans (List.map_id' im)

/-- C9: under `bw` with dithering disabled (the library conversion being
the documented luma threshold), plane separation applied to an
already-binary raster and then to the returned black plane returns that
plane unchanged. -/
theorem C9_bw_idempotent (q : Quantizer) (c1 : Converter) (image b c b2 c2 : Raster)
    (hconv : ∀ im : Raster, c1 im false = bilevel1 im)
    (_hbin : onlyBW image)
    (h1 : image_to_palette q c1 image "bw" false = .ok (b, c))
    (h2 : image_to_palette q c1 b "bw" false = .ok (b2, c2)) :
    b2 = b := by
  have e1 : image_to_palette q c1 image "bw" false =
      .ok (c1 image false, whiteLike (c1 image false)) := rfl
  have e2 : image_to_palette q c1 b "bw" false =
      .ok (c1 b false, whiteLike (c1 b false)) := rfl
  rw [e1] at h1
  rw [e2] at h2
  simp only [Except.ok.injEq, Prod.mk.injEq] at h1 h2
  obtain ⟨hb, -⟩ := h1
  obtain ⟨hb2, -⟩ := h2
  rw [← hb2, hconv, ← hb, hconv]
  exact bilevel1_fixes_binary (bilevel1_onlyBW image)

/-- Witness for C9 on the binary 2×1 raster `[white, black]`. -/
theorem C9_bw_idempotent_witness : ([[whitePix, blackPix]] : Raster) = [[whitePix, blackPix]] :=
  C9_bw_idempotent nearestQuantize thresholdConv [[whitePix, blackPix]]
    [[whitePix, blackPix]] [[whitePix, whitePix]] [[whitePix, blackPix]] [[whitePix, whitePix]]
    (fun _ => rfl) (by decide) (by rfl) (by rfl)

/-- Equal row-length profiles transfer length and head width. -/
theorem shape_of_map_length {l m : Raster} (h : l.map List.length = m.map List.length) :
    l.length = m.length ∧ (l.headD []).length = (m.headD []).length := by
  constructor
  · have := congrArg List.length h
    simpa using this
  · cases l with
    | nil =>
      cases m with
      | nil => rfl
      | cons r rs => simp at h
    | cons r rs =>
      cases m with
      | nil => simp at h
      | cons s ss =>
        simp only [List.map_cons, List.cons.injEq] at h
        simpa using h.1

/-- C6: under `bw` the black plane is the library bilevel conversion of
the input with the caller's dither flag, the colour plane is an all-white
raster of the input's dimensions, and the result does not depend on the
quantizer (the palette/quantization/accent steps are skipped). -/
theorem C6_bw_branch (q q2 : Quantizer) (c1 : Converter) (image : Raster) (dither : Bool)
    (hsize : (c1 image dither).map List.length = image.map List.length) :
    image_to_palette q c1 image "bw" dither =
      .ok (c1 image dither,
        List.replicate image.length (List.replicate (image.headD []).length whitePix)) ∧
    image_to_palette q c1 image "bw" dither = image_to_palette q2 c1 image "bw" dither := by
  obtain ⟨hlen, hhead⟩ := shape_of_map_length hsize
  constructor
  · have e : image_to_palette q c1 image "bw" dither =
        .ok (c1 image dither, whiteLike (c1 image dither)) := rfl
    rw [e]
    unfold whiteLike
    rw [hlen, hhead]
  · rfl

/-- Witness for C6 at a concrete one-pixel raster. -/
theorem C6_bw_branch_witness :
    image_to_palette nearestQuantize thresholdConv [[⟨7, 200, 30⟩]] "bw" false =
      .ok ([[blackPix]], [[whitePix]]) ∧
    image_to_palette nearestQuantize thresholdConv [[⟨7, 200, 30⟩]] "bw" false =
      image_to_palette (fun _ _ _ => []) thresholdConv [[⟨7, 200, 30⟩]] "bw" false := by
  have h := C6_bw_branch nearestQuantize (fun _ _ _ => ([] : Raster)) thresholdConv
    [[⟨7, 200, 30⟩]] false rfl
  exact h

/-- Every triple of the replicated bwr table is white, black or red. -/
theorem mem_fullTable_bwr : ∀ t ∈ chunk3 (fullTable bwrPal),
    t = [255, 255, 255] ∨ t = [0, 0, 0] ∨ t = [255, 0, 0] := by decide

/-- Every triple of the replicated bwy table is white, black or yellow. -/
theorem mem_fullTable_bwy : ∀ t ∈ chunk3 (fullTable bwyPal),
    t = [255, 255, 255] ∨ t = [0, 0, 0] ∨ t = [255, 255, 0] := by decide

/-- A pixel is determined by its channel list. -/
theorem pix_eq_of_list {p : RGB} {a b c : Nat} (h : pixToList p = [a, b, c]) : p = ⟨a, b, c⟩ := by
  cases p with
  | mk r g bl =>
    simp only [pixToList, List.cons.injEq, and_true] at h
    obtain ⟨rfl, rfl, rfl⟩ := h
    rfl

/-- A pixel of a pointwise-mapped raster comes from a source pixel. -/
theorem mem_flatten_map_map {α β : Type} {f : α → β} {Q : List (List α)} {p : β}
    (hp : p ∈ (Q.map (fun row => row.map f)).flatten) : ∃ p0 ∈ Q.flatten, p = f p0 := by
  simp only [List.mem_flatten, List.mem_map] at hp
  obtain ⟨row, ⟨row0, hrow0, hrow⟩, hpin⟩ := hp
  subst hrow
  obtain ⟨p0, hp0, hpeq⟩ := List.mem_map.mp hpin
  exact ⟨p0, List.mem_flatten.mpr ⟨row0, hrow0, hp0⟩, hpeq.symm⟩

/-- Every pixel of an all-white raster of a given size is white. -/
theorem mem_whiteLike {im : Raster} {p : RGB} (hp : p ∈ (whiteLike im).flatten) : p = whitePix := by
  simp only [whiteLike, List.mem_flatten] at hp
  obtain ⟨row, hrow, hpin⟩ := hp
  rw [List.eq_of_mem_replicate hrow] at hpin
  exact List.eq_of_mem_replicate hpin

/-- C1 counterexample: under 16gray the mid-gray pixel (32,32,32) is on
the palette, survives both plane derivations, and is neither pure white
nor pure black. -/
theorem C1_counterexample_gray_plane :
    image_to_palette nearestQuantize thresholdConv [[⟨32, 32, 32⟩]] "16gray" false =
      .ok ([[⟨32, 32, 32⟩]], [[⟨32, 32, 32⟩]]) ∧
    ¬ onlyBW [[⟨32, 32, 32⟩]] :=
  ⟨by rfl, by decide⟩

/-- C1 amended: for the tokens bwr, bwy and bw (16gray excluded), any
quantizer that stays on the given table and any bilevel converter make
both returned planes contain only pure white and pure black. -/
theorem C1_planes_only_black_white (q : Quantizer) (c1 : Converter) (image : Raster)
    (palette : String) (dither : Bool)
    (hpal : palette = "bwr" ∨ palette = "bwy" ∨ palette = "bw")
    (hq : ∀ pal0, basePal palette = some (some pal0) →
      ∀ p ∈ (q image (fullTable pal0) dither).flatten, pixToList p ∈ chunk3 (fullTable pal0))
    (hconv : ∀ d, onlyBW (c1 image d))
    (b c : Raster) (h : image_to_palette q c1 image palette dither = .ok (b, c)) :
    onlyBW b ∧ onlyBW c := by
  rcases hpal with rfl | rfl | rfl
  · have e : image_to_palette q c1 image "bwr" dither =
        .ok ((q image (fullTable bwrPal) dither).map (fun row => row.map (blackStep 255 0)),
          (q image (fullTable bwrPal) dither).map (fun row => row.map (colourStep 0))) := rfl
    rw [e] at h
    simp only [Except.ok.injEq, Prod.mk.injEq] at h
    obtain ⟨hb, hc⟩ := h
    subst hb
    subst hc
    constructor
    · intro p hp
      obtain ⟨p0, hp0, rfl⟩ := mem_flatten_map_map hp
      rcases mem_fullTable_bwr _ (hq bwrPal rfl p0 hp0) with h3 | h3 | h3 <;>
        rw [pix_eq_of_list h3] <;> decide
    · intro p hp
      obtain ⟨p0, hp0, rfl⟩ := mem_flatten_map_map hp
      rcases mem_fullTable_bwr _ (hq bwrPal rfl p0 hp0) with h3 | h3 | h3 <;>
        rw [pix_eq_of_list h3] <;> decide
  · have e : image_to_palette q c1 image "bwy" dither =
        .ok ((q image (fullTable bwyPal) dither).map (fun row => row.map (blackStep 255 255)),
          (q image (fullTable bwyPal) dither).map (fun row => row.map (colourStep 255))) := rfl
    rw [e] at h
    simp only [Except.ok.injEq, Prod.mk.injEq] at h
    obtain ⟨hb, hc⟩ := h
    subst hb
    subst hc
    constructor
    · intro p hp
      obtain ⟨p0, hp0, rfl⟩ := mem_flatten_map_map hp
      rcases mem_fullTable_bwy _ (hq bwyPal rfl p0 hp0) with h3 | h3 | h3 <;>
        rw [pix_eq_of_list h3] <;> decide
    · intro p hp
      obtain ⟨p0, hp0, rfl⟩ := mem_flatten_map_map hp
      rcases mem_fullTable_bwy _ (hq bwyPal rfl p0 hp0) with h3 | h3 | h3 <;>
        rw [pix_eq_of_list h3] <;> decide
  · have e : image_to_palette q c1 image "bw" dither =
        .ok (c1 image dither, whiteLike (c1 image dither)) := rfl
    rw [e] at h
    simp only [Except.ok.injEq, Prod.mk.injEq] at h
    obtain ⟨hb, hc⟩ := h
    subst hb
    subst hc
    exact ⟨hconv dither, fun p hp => Or.inl (mem_whiteLike hp)⟩

/-- Witness for the amended C1 at a one-pixel reddish raster under bwr. -/
theorem C1_planes_only_black_white_witness :
    onlyBW [[whitePix]] ∧ onlyBW [[blackPix]] :=
  C1_planes_only_black_white nearestQuantize thresholdConv [[⟨200, 10, 10⟩]] "bwr" false
    (Or.inl rfl)
    (by
      intro pal0 hp0
      have h1 : (some (some bwrPal) : Option (Option (List Nat))) = some (some pal0) := hp0
      have h2 : bwrPal = pal0 := by
        injection h1 with h3
        injection h3
      subst h2
      decide)
    (fun d => by
      have hB : onlyBW (bilevel1 [[⟨200, 10, 10⟩]]) := by decide
      exact hB)
    [[whitePix]] [[blackPix]] (by rfl)

namespace Inkyimage

/-- `MULDIV255` of a mask weight 0 is 0. -/
theorem mulDiv255_zero_right (x : Nat) : mulDiv255 x 0 = 0 := by
  show ((x * 0 + 128) / 256 + (x * 0 + 128)) / 256 = 0
  omega

/-- `MULDIV255` of a full mask weight returns the channel unchanged. -/
theorem mulDiv255_255_right {x : Nat} (hx : x ≤ 255) : mulDiv255 x 255 = x := by
  show ((x * 255 + 128) / 256 + (x * 255 + 128)) / 256 = x
  omega

/-- Mask 0 keeps the destination channel. -/
theorem blendC_zero {x : Nat} (hx : x ≤ 255) (s : Nat) : blendC 0 x s = x := by
  show mulDiv255 x 255 + mulDiv255 s 0 = x
  rw [mulDiv255_255_right hx, mulDiv255_zero_right]
  exact Nat.add_zero x

/-- Mask 255 replaces the destination channel by the source channel. -/
theorem blendC_255 (d : Nat) {s : Nat} (hs : s ≤ 255) : blendC 255 d s = s := by
  show mulDiv255 d 0 + mulDiv255 s 255 = s
  rw [mulDiv255_zero_right, mulDiv255_255_right hs]
  exact Nat.zero_add s

/-- Mask 0 keeps the destination pixel. -/
theorem blendPix_zero {dst : RGBA} (h : validPix dst) (src : RGBA) : blendPix 0 dst src = dst := by
  obtain ⟨h1, h2, h3, h4⟩ := h
  unfold blendPix
  rw [blendC_zero h1, blendC_zero h2, blendC_zero h3, blendC_zero h4]

/-- Mask 255 replaces the destination pixel by the source pixel. -/
theorem blendPix_255 (dst : RGBA) {src : RGBA} (h : validPix src) : blendPix 255 dst src = src := by
  obtain ⟨h1, h2, h3, h4⟩ := h
  unfold blendPix
  rw [blendC_255 _ h1, blendC_255 _ h2, blendC_255 _ h3, blendC_255 _ h4]

/-- A pasted row keeps the destination row length. -/
theorem pasteRow_length (ps qs : List RGBA) : (pasteRow ps qs).length = ps.length := by
  induction ps generalizing qs with
  | nil => cases qs <;> rfl
  | cons p ps ih =>
    cases qs with
    | nil => rfl
    | cons q qs =>
      show (blendPix q.a p q :: pasteRow ps qs).length = (p :: ps).length
      simp [ih]

/-- Pasting keeps the row-length profile of the destination. -/
theorem pasteAt00_map_length (rows ors : RGBARaster) :
    (pasteAt00 rows ors).map List.length = rows.map List.length := by
  induction rows generalizing ors with
  | nil => cases ors <;> rfl
  | cons row rows ih =>
    cases ors with
    | nil => rfl
    | cons orow orows =>
      show (pasteRow row orow :: pasteAt00 rows orows).map List.length =
        (row :: rows).map List.length
      simp [pasteRow_length, ih]

/-- Lookup in a pasted row where both rows have the column. -/
theorem pasteRow_getElem?_both {ps qs : List RGBA} {x : Nat} {p q2 : RGBA}
    (hp : ps[x]? = some p) (hq : qs[x]? = some q2) :
    (pasteRow ps qs)[x]? = some (blendPix q2.a p q2) := by
  induction ps generalizing qs x with
  | nil => simp at hp
  | cons p0 ps ih =>
    cases qs with
    | nil => simp at hq
    | cons q0 qs =>
      cases x with
      | zero =>
        simp only [List.getElem?_cons_zero, Option.some.injEq] at hp hq
        subst hp
        subst hq
        show (blendPix q0.a p0 q0 :: pasteRow ps qs)[0]? = some (blendPix q0.a p0 q0)
        simp
      | succ x =>
        simp only [List.getElem?_cons_succ] at hp hq
        show (blendPix q0.a p0 q0 :: pasteRow ps qs)[x + 1]? = some (blendPix q2.a p q2)
        simpa using ih hp hq

/-- Lookup in a pasted row past the end of the source row. -/
theorem pasteRow_getElem?_left {ps qs : List RGBA} {x : Nat} (hq : qs[x]? = none) :
    (pasteRow ps qs)[x]? = ps[x]? := by
  induction ps generalizing qs x with
  | nil => cases qs <;> rfl
  | cons p0 ps ih =>
    cases qs with
    | nil => rfl
    | cons q0 qs =>
      cases x with
      | zero => simp at hq
      | succ x =>
        simp only [List.getElem?_cons_succ] at hq
        show (blendPix q0.a p0 q0 :: pasteRow ps qs)[x + 1]? = (p0 :: ps)[x + 1]?
        simpa using ih hq

/-- Row lookup in a pasted raster where both rasters have the row. -/
theorem pasteAt00_getElem?_both {rows ors : RGBARaster} {y : Nat} {row orow : List RGBA}
    (h1 : rows[y]? = some row) (h2 : ors[y]? = some orow) :
    (pasteAt00 rows ors)[y]? = some (pasteRow row orow) := by
  induction rows generalizing ors y with
  | nil => simp at h1
  | cons r0 rows ih =>
    cases ors with
    | nil => simp at h2
    | cons o0 ors =>
      cases y with
      | zero =>
        simp only [List.getElem?_cons_zero, Option.some.injEq] at h1 h2
        subst h1
        subst h2
        show (pasteRow r0 o0 :: pasteAt00 rows ors)[0]? = some (pasteRow r0 o0)
        simp
      | succ y =>
        simp only [List.getElem?_cons_succ] at h1 h2
        show (pasteRow r0 o0 :: pasteAt00 rows ors)[y + 1]? = some (pasteRow row orow)
        simpa using ih h1 h2

/-- A pasted row over an all-transparent source row is unchanged. -/
theorem pasteRow_id {ps qs : List RGBA} (hv : ∀ p ∈ ps, validPix p) (ha : ∀ q ∈ qs, q.a = 0) :
    pasteRow ps qs = ps := by
  induction ps generalizing qs with
  | nil => cases qs <;> rfl
  | cons p ps ih =>
    cases qs with
    | nil => rfl
    | cons q qs =>
      show blendPix q.a p q :: pasteRow ps qs = p :: ps
      rw [ha q (by simp), blendPix_zero (hv p (by simp)) q,
        ih (fun p2 hp2 => hv p2 (by simp [hp2])) (fun q2 hq2 => ha q2 (by simp [hq2]))]

/-- Pasting an all-transparent source leaves the destination unchanged. -/
theorem pasteAt00_id {rows ors : RGBARaster} (hv : ∀ p ∈ rows.flatten, validPix p)
    (ha : ∀ q ∈ ors.flatten, q.a = 0) : pasteAt00 rows ors = rows := by
  induction rows generalizing ors with
  | nil => cases ors <;> rfl
  | cons row rows ih =>
    cases ors with
    | nil => rfl
    | cons orow orows =>
      show pasteRow row orow :: pasteAt00 rows orows = row :: rows
      rw [pasteRow_id
          (fun p hp => hv p (by
            simp only [List.flatten_cons, List.mem_append]
            exact Or.inl hp))
          (fun q hq => ha q (by
            simp only [List.flatten_cons, List.mem_append]
            exact Or.inl hq)),
        ih
          (fun p hp => hv p (by
            simp only [List.flatten_cons, List.mem_append]
            exact Or.inr hp))
          (fun q hq => ha q (by
            simp only [List.flatten_cons, List.mem_append]
            exact Or.inr hq))]

/-- Decompose a successful pixel lookup into row and column lookups. -/
theorem px4_eq_some {im : RGBARaster} {y x : Nat} {p : RGBA} (h : px4 im y x = some p) :
    ∃ row, im[y]? = some row ∧ row[x]? = some p := by
  unfold px4 at h
  cases him : im[y]? with
  | none =>
    rw [him] at h
    have h2 : (none : Option RGBA) = some p := h
    cases h2
  | some row =>
    rw [him] at h
    exact ⟨row, rfl, h⟩

/-- Pixel lookup through a known row lookup. -/
theorem px4_of_getElem {im : RGBARaster} {y : Nat} (x : Nat) {row : List RGBA}
    (h : im[y]? = some row) : px4 im y x = row[x]? := by
  unfold px4
  rw [h]
  rfl

/-- C7: merging composites the white-keyed overlay over the base — at
every overlapping position the base pixel shows through where the
overlay is pure white, and the overlay pixel wins at full opacity
elsewhere; an all-white overlay leaves the base unchanged. -/
theorem C7_merge_white_chroma_key (base ow : RGBARaster)
    (hb : ∀ p ∈ base.flatten, validPix p) (ho : ∀ p ∈ ow.flatten, validPix p) :
    (∀ y x pb po, px4 base y x = some pb → px4 ow y x = some po →
      px4 (merge base ow) y x =
        some (if po.r = 255 ∧ po.g = 255 ∧ po.b = 255 then pb
          else ⟨po.r, po.g, po.b, 255⟩)) ∧
    ((∀ p ∈ ow.flatten, p.r = 255 ∧ p.g = 255 ∧ p.b = 255) → merge base ow = base) := by
  constructor
  · intro y x pb po hpb hpo
    obtain ⟨row, hby, hpx⟩ := px4_eq_some hpb
    obtain ⟨orow, hoy, hox⟩ := px4_eq_some hpo
    have hcw : (clear_white ow)[y]? = some (orow.map clearPix) := by
      unfold clear_white
      rw [List.getElem?_map, hoy]
      rfl
    have hrow : (pasteAt00 base (clear_white ow))[y]? =
        some (pasteRow row (orow.map clearPix)) := pasteAt00_getElem?_both hby hcw
    have hcx : (orow.map clearPix)[x]? = some (clearPix po) := by
      rw [List.getElem?_map, hox]
      rfl
    have hget : (pasteRow row (orow.map clearPix))[x]? =
        some (blendPix (clearPix po).a pb (clearPix po)) := pasteRow_getElem?_both hpx hcx
    have hmerge : px4 (merge base ow) y x =
        some (blendPix (clearPix po).a pb (clearPix po)) := by
      rw [show merge base ow = pasteAt00 base (clear_white ow) from rfl,
        px4_of_getElem x hrow, hget]
    rw [hmerge]
    have hpbv : validPix pb :=
      hb pb (List.mem_flatten.mpr ⟨row, List.getElem?_mem hby, List.getElem?_mem hpx⟩)
    have hpov : validPix po :=
      ho po (List.mem_flatten.mpr ⟨orow, List.getElem?_mem hoy, List.getElem?_mem hox⟩)
    by_cases hw : po.r = 255 ∧ po.g = 255 ∧ po.b = 255
    · have hcp : clearPix po = ⟨po.r, po.g, po.b, 0⟩ := by
        unfold clearPix
        rw [if_pos hw]
      rw [hcp, if_pos hw]
      exact congrArg some (blendPix_zero hpbv _)
    · have hcp : clearPix po = ⟨po.r, po.g, po.b, 255⟩ := by
        unfold clearPix
        rw [if_neg hw]
      rw [hcp, if_neg hw]
      exact congrArg some
        (blendPix_255 pb ⟨hpov.1, hpov.2.1, hpov.2.2.1, Nat.le_refl 255⟩)
  · intro hwhite
    unfold merge
    refine pasteAt00_id hb ?_
    intro q hq
    obtain ⟨p0, hp0, rfl⟩ := mem_flatten_map_map hq
    unfold clearPix
    rw [if_pos (hwhite p0 hp0)]

/-- Witness for C7: an all-white overlay over a one-pixel base leaves
the base unchanged. -/
theorem C7_merge_white_chroma_key_witness :
    merge [[⟨10, 20, 30, 255⟩]] [[⟨255, 255, 255, 40⟩]] = [[⟨10, 20, 30, 255⟩]] :=
  (C7_merge_white_chroma_key [[⟨10, 20, 30, 255⟩]] [[⟨255, 255, 255, 40⟩]]
    (by decide) (by decide)).2 (by decide)

/-- C8 counterexample: an overlay one row taller than the base does not
make `merge` fail — the excess row is cropped and a merged raster of the
base's dimensions is returned. -/
theorem C8_counterexample_oversized_overlay :
    merge [[⟨255, 255, 255, 255⟩]] [[⟨0, 0, 0, 255⟩], [⟨0, 0, 0, 255⟩]] =
      [[⟨0, 0, 0, 255⟩]] := by rfl

/-- C8 amended: `merge` never fails on a size mismatch — overlay content
outside the base bounds at origin is cropped, and the merged raster
always has the row-length profile (dimensions) of the base. -/
theorem C8_merge_dims_always_base (base ow : RGBARaster) :
    (merge base ow).map List.length = base.map List.length :=
  pasteAt00_map_length base (clear_white ow)

end Inkyimage

end Inkycal
